import Mathlib

/-!
# lab4.c: request framing, request-line parsing, path check and file streaming

A shallow embedding of `src/lab4.c`.

* A C `char` is its numeric value (`Byte`), memory is a list of bytes, and the
  C string stored at a pointer is the run of bytes up to the first NUL (`cstr`).
* `sscanf_request` follows the directives of the format
  `"GET %4096s HTTP/1.%d%c%c"` one by one.
* The socket is a script of `recv` results, the file system a function from the
  path given to `open` to the content of the file.
* System calls that the client can observe are recorded as a list of `Event`s.
  A `send` on the blocking socket transmits all the bytes it is given; a `read` on a
  regular file returns the next bytes, 4096 at most, and 0 at the end of the file.
* The loops are not given fuel.  The framing loop runs along the script of `recv`
  results and reports whether it has been left (`Framing.exited`) or is about to call
  `recv` again (`Framing.reading`).  The streaming loop is `while(1)` without `break`:
  `streamLoop n` lists the events of its first `n` rounds, for every `n`.
-/

namespace Lab4

/-! ## Bytes and C strings -/

/-- A C `char`, as its numeric value. -/
abbrev Byte := Nat

/-- The bytes of a string literal (all literals of the program are ASCII). -/
def bytes (s : String) : List Byte := s.toList.map Char.toNat

/-- The C string stored at a pointer, given the memory from that pointer on:
the bytes before the first NUL. -/
def cstr (mem : List Byte) : List Byte := mem.takeWhile (fun c => c != 0)

/-- The function `isspace` in the C locale: space, `\t`, `\n`, `\v`, `\f`, `\r`. -/
def isspace (c : Byte) : Bool := c == 32 || (decide (9 ≤ c) && decide (c ≤ 13))

/-- The function `isdigit`. -/
def isdigit (c : Byte) : Bool := decide (48 ≤ c) && decide (c ≤ 57)

/-- The call `strstr(haystack, needle) != NULL`, on the two C strings. -/
def strstr : List Byte → List Byte → Bool
  | [], needle => needle.isEmpty
  | c :: haystack, needle => needle.isPrefixOf (c :: haystack) || strstr haystack needle

/-- The terminator `"\r\n\r\n"` searched for by the framing loop. -/
def CRLFCRLF : List Byte := [13, 10, 13, 10]

/-- The literal `"GET"` that opens the `sscanf` format. -/
def GET : List Byte := [71, 69, 84]

/-- The literal `"HTTP/1."` of the `sscanf` format. -/
def HTTP1 : List Byte := [72, 84, 84, 80, 47, 49, 46]

/-- The literal `"/../"` of the path check. -/
def DOTDOT : List Byte := [47, 46, 46, 47]

/-- The array `response_str` without its final NUL (`sizeof(response_str) - 1` bytes). -/
def response_str : List Byte :=
  bytes "HTTP/1.0 200 OK\r\nContent-type: text/html; charset=UTF-8\r\n\r\n"

/-! ## `sscanf(request, "GET %4096s HTTP/1.%d%c%c", buffer, &version, &cr, &nl)` -/

/-- Outcome of matching the ordinary characters of a format against the input. -/
inductive Lit where
  /-- all characters matched; the rest of the input -/
  | ok (rest : List Byte)
  /-- an input byte differs from the format (matching failure) -/
  | mismatch
  /-- the input ended first (input failure) -/
  | eof
  deriving DecidableEq

/-- Ordinary characters of a format: each must equal the next input byte. -/
def matchLit : List Byte → List Byte → Lit
  | [], input => Lit.ok input
  | _ :: _, [] => Lit.eof
  | c :: cs, i :: input => if i = c then matchLit cs input else Lit.mismatch

/-- A white-space directive (and the white-space skipping of `%s` and `%d`):
consumes any number of white-space bytes, also none. -/
def skipSpace (input : List Byte) : List Byte := input.dropWhile isspace

/-- The conversion `%4096s` after white space has been skipped: the longest run of
non-white-space bytes, at most 4096 of them. -/
def scanToken (input : List Byte) : List Byte :=
  (input.takeWhile (fun c => !isspace c)).take 4096

/-- An optional sign in front of the digits of `%d`. -/
def skipSign : List Byte → List Byte
  | [] => []
  | c :: input => if c == 43 || c == 45 then input else c :: input

/-- The conversion `%d`: white space, an optional sign, one or more decimal digits.
The result is the input after the digits, or `none` when no digit is there.  The
converted value goes to the local `version`, which `parseRequest` never reads. -/
def scanInt (input : List Byte) : Option (List Byte) :=
  match skipSign (skipSpace input) with
  | [] => none
  | c :: rest => if isdigit c then some (rest.dropWhile isdigit) else none

/-- What the call of `sscanf` leaves behind. -/
structure Scan where
  /-- the value returned: the number of conversions assigned, or `-1` (`EOF`) -/
  ret : Int
  /-- the string stored through `buffer` by `%4096s` (empty if not assigned) -/
  buffer : List Byte
  /-- the local `cr` (0 if not assigned) -/
  cr : Byte
  /-- the local `nl` (0 if not assigned) -/
  nl : Byte
  deriving DecidableEq

/-- The call of `sscanf` in `parseRequest`, on the C string `input`. -/
def sscanf_request (input : List Byte) : Scan :=
  match matchLit GET input with
  | Lit.eof => ⟨-1, [], 0, 0⟩
  | Lit.mismatch => ⟨0, [], 0, 0⟩
  | Lit.ok s1 =>
    let s2 := skipSpace s1
    let token := scanToken s2
    if token = [] then ⟨-1, [], 0, 0⟩
    else
      match matchLit HTTP1 (skipSpace (s2.drop token.length)) with
      | Lit.eof => ⟨1, token, 0, 0⟩
      | Lit.mismatch => ⟨1, token, 0, 0⟩
      | Lit.ok s3 =>
        match scanInt s3 with
        | none => ⟨1, token, 0, 0⟩
        | some [] => ⟨2, token, 0, 0⟩
        | some [cr] => ⟨3, token, cr, 0⟩
        | some (cr :: nl :: _) => ⟨4, token, cr, nl⟩

/-! ## `parseRequest` -/

/-- A value computed by the program, or an access outside an allocated object. -/
inductive Ret (α : Type) where
  | val (a : α)
  | fault
  deriving DecidableEq

/-- The function `parseRequest`.  `request` is the memory at the argument pointer.
The result holds the request memory after the call and the returned pointer: `none`
for `0`, otherwise the string at the returned heap block.  The block has 4096 bytes
(`calloc(4096, 1)`); `%4096s` stores the token and a NUL, so a token of 4096 bytes
writes 4097 bytes, which is `fault`. -/
def parseRequest (request : List Byte) : Ret (List Byte × Option (List Byte)) :=
  let r := sscanf_request (cstr request)
  if 4096 < r.buffer.length + 1 then Ret.fault
  else if r.ret != 4 || r.cr != 13 || r.nl != 10 then Ret.val (request, none)
  else Ret.val (request, some r.buffer)

/-! ## The socket, the file system and the observable events -/

/-- What one call of `recv` on the client socket delivers. -/
inductive RecvResult where
  /-- bytes arrive: they are stored and their number is returned -/
  | data (chunk : List Byte)
  /-- the peer has closed the connection: `recv` returns 0 -/
  | closed
  /-- the call fails: `recv` returns -1 and stores nothing -/
  | error
  deriving DecidableEq

/-- The call `recv(client_fd, &buffer[offset], cap, 0)`: the buffer after the call and
the value returned.  At most `cap` bytes are taken from what has arrived. -/
def recv (r : RecvResult) (buffer : List Byte) (offset cap : Nat) : List Byte × Int :=
  match r with
  | RecvResult.data chunk =>
    let c := chunk.take cap
    (buffer.take offset ++ c ++ buffer.drop (offset + c.length), c.length)
  | RecvResult.closed => (buffer, 0)
  | RecvResult.error => (buffer, -1)

/-- Conversion of an `ssize_t` to `size_t` (64 bits): reduction modulo `2 ^ 64`. -/
def toSizeT (x : Int) : Nat := (x % (2 : Int) ^ 64).toNat

/-- A system call of `serve_request` after framing, as the outside sees it. -/
inductive Event where
  /-- the call `send(client_fd, p, len, 0)`; `src` is the content of the object at `p` -/
  | send (src : List Byte) (len : Nat)
  /-- the call `open(path, O_RDONLY)` and the descriptor it returned -/
  | openRO (path : List Byte) (fd : Int)
  /-- the call `read(fd, buffer, sizeof buffer)` and the count it returned -/
  | read (fd : Int) (ret : Int)
  deriving DecidableEq

/-- The bytes a list of events puts on the connection.  A `send` whose length exceeds
its source object has no defined content: the result is `none`. -/
def sentBytes : List Event → Option (List Byte)
  | [] => some []
  | Event.send src len :: es =>
    if len ≤ src.length then (sentBytes es).map (fun bs => src.take len ++ bs) else none
  | _ :: es => sentBytes es

/-- The paths passed to `open` in a list of events. -/
def openedPaths : List Event → List (List Byte)
  | [] => []
  | Event.openRO path _ :: es => path :: openedPaths es
  | _ :: es => openedPaths es

/-- The lengths passed to `send` in a list of events. -/
def sendLengths : List Event → List Nat
  | [] => []
  | Event.send _ len :: es => len :: sendLengths es
  | _ :: es => sendLengths es

/-- The values returned by `read` in a list of events. -/
def readResults : List Event → List Int
  | [] => []
  | Event.read _ ret :: es => ret :: readResults es
  | _ :: es => readResults es

/-- The environment of one connection. -/
structure World where
  /-- what the successive calls of `recv` deliver -/
  script : List RecvResult
  /-- the memory that follows the 4096 bytes of `buffer`, read when the buffer holds
  no NUL -/
  beyond : List Byte
  /-- the file system: the content of the file a path opens, `none` if `open` fails -/
  fs : List Byte → Option (List Byte)

/-! ## `send_error` -/

/-- The function `send_error`: the response built by `snprintf` into `response[256]`
and sent with length `strlen(response)`.  The status code is an `int` in the source;
the only call passes 400. -/
def send_error (http_status_code : Nat) : List Event :=
  let status := if http_status_code = 400 then bytes "Bad Request" else []
  let response := (bytes "HTTP/1.0 " ++ bytes (toString http_status_code) ++ [32] ++ status
    ++ bytes "\r\nConnection: close\r\n\r\n").take 255
  [Event.send response (cstr response).length]

/-- The 400 response as the specification writes it. -/
def error400 : List Byte := bytes "HTTP/1.0 400 Bad Request\r\nConnection: close\r\n\r\n"

/-! ## The framing loop of `serve_request` (lines 62-71) -/

/-- The locals `offset` and `buffer` of `serve_request`. -/
structure Frame where
  offset : Nat
  buffer : List Byte
  deriving DecidableEq

/-- The locals at entry: `offset = 0`, `buffer` all zero. -/
def frame0 : Frame := ⟨0, List.replicate 4096 0⟩

/-- Where the framing loop stands once the script of `recv` results is used up. -/
inductive Framing where
  /-- the loop has been left, by `break` or because `offset < sizeof buffer` is false -/
  | exited (f : Frame)
  /-- the loop is still running: its next step is another call of `recv` -/
  | reading (f : Frame)
  deriving DecidableEq

/-- The loop `while (offset < sizeof buffer) { recv; if (strstr(buffer + offset, ...)) break;
offset += received; }`.  The string at `buffer + offset` runs into `beyond` when the
buffer holds no NUL from `offset` on. -/
def frameLoop (beyond : List Byte) : List RecvResult → Frame → Framing
  | [], f => if f.offset < 4096 then Framing.reading f else Framing.exited f
  | r :: script, f =>
    if f.offset < 4096 then
      let (buffer, received) := recv r f.buffer f.offset (4096 - f.offset)
      if strstr (cstr (buffer.drop f.offset ++ beyond)) CRLFCRLF then
        Framing.exited ⟨f.offset, buffer⟩
      else
        frameLoop beyond script ⟨toSizeT (f.offset + received), buffer⟩
    else Framing.exited f

/-! ## The streaming loop of `serve_request` (lines 99-102) -/

/-- The state of the loop `while(1)`. -/
structure Stream where
  /-- the descriptor returned by `open` -/
  read_fd : Int
  /-- the part of the opened file not read yet (empty when `open` failed) -/
  file : List Byte
  /-- the local `buffer` -/
  buffer : List Byte
  deriving DecidableEq

/-- The call `read(read_fd, buffer, sizeof buffer)`: on a descriptor that is not open
it returns -1; on a file it stores the next bytes, at most 4096, and returns their
number, which is 0 at the end of the file. -/
def read (s : Stream) : Stream × Int :=
  if s.read_fd < 0 then (s, -1)
  else
    let c := s.file.take 4096
    (⟨s.read_fd, s.file.drop 4096, c ++ s.buffer.drop c.length⟩, c.length)

/-- The body of the loop: `bytes_read = read(...); send(client_fd, buffer, bytes_read, 0);`.
The length parameter of `send` is a `size_t`. -/
def streamBody (s : Stream) : Stream × List Event :=
  let (s1, bytes_read) := read s
  (s1, [Event.read s.read_fd bytes_read, Event.send s1.buffer (toSizeT bytes_read)])

/-- The events of the first `n` executions of the body of the loop.  The loop is
`while(1)` with no `break` and no `return` in its body: it has such events for every
`n`. -/
def streamLoop : Nat → Stream → List Event
  | 0, _ => []
  | n + 1, s => (streamBody s).2 ++ streamLoop n (streamBody s).1

/-! ## `serve_request` and `main` -/

/-- How far a call of `serve_request` gets. -/
inductive Outcome where
  /-- `serve_request` has returned, after these events; `main` then closes the socket -/
  | returned (trace : List Event)
  /-- the framing loop has not been left when the script ends: no event so far, and
  the next step is another `recv` -/
  | reading (f : Frame)
  /-- the loop `while(1)` of line 99 has been entered after these events, in this
  state; the statement `close(read_fd)` behind it is not reachable -/
  | streaming (trace : List Event) (s : Stream)
  /-- `parseRequest` wrote outside its heap block -/
  | fault
  deriving DecidableEq

/-- The function `serve_request`.  A successful `open` returns a descriptor that is not
negative, here 3; a failed one returns -1. -/
def serve_request (w : World) : Outcome :=
  match frameLoop w.beyond w.script frame0 with
  | Framing.reading f => Outcome.reading f
  | Framing.exited f =>
    match parseRequest (f.buffer ++ w.beyond) with
    | Ret.fault => Outcome.fault
    | Ret.val (_, none) => Outcome.returned (send_error 400)
    | Ret.val (_, some requested_file) =>
      if requested_file.headD 0 != 47 || strstr requested_file DOTDOT then
        Outcome.returned (send_error 400)
      else
        let file_path := 46 :: requested_file
        let read_fd : Int := if (w.fs file_path).isSome then 3 else -1
        Outcome.streaming
          [Event.send response_str response_str.length, Event.openRO file_path read_fd]
          ⟨read_fd, (w.fs file_path).getD [], f.buffer⟩

/-- The events of a call of `serve_request` up to the `n`-th execution of the body of
its streaming loop. -/
def Outcome.events (n : Nat) : Outcome → List Event
  | Outcome.returned trace => trace
  | Outcome.reading _ => []
  | Outcome.streaming trace s => trace ++ streamLoop n s
  | Outcome.fault => []

/-- One turn of the accept loop of `main`: `serve_request(sock); close(sock);`.
Of the command line `argv`, `main` reads `argv[1]` (the port) and nothing else. -/
def main_connection (_argv : List (List Byte)) (w : World) : Outcome := serve_request w

/-! ## The grammars of the request line -/

/-- The grammar of the specification, in its words: `"GET "`, a non-empty path token
without white space, `" HTTP/1."`, a decimal integer, `"\r\n"`, then anything. -/
def SpecLine (s : List Byte) : Prop :=
  ∃ path digits rest : List Byte,
    s = bytes "GET " ++ path ++ bytes " HTTP/1." ++ digits ++ bytes "\r\n" ++ rest ∧
    path ≠ [] ∧ (∀ c ∈ path, isspace c = false) ∧
    digits ≠ [] ∧ (∀ c ∈ digits, isdigit c = true)

/-- The strings the format `"GET %4096s HTTP/1.%d%c%c"` reads four items from, with
`\r` and `\n` as the last two, when the token has fewer than 4096 bytes: `"GET"`, white
space (possibly none), a non-empty token without white space, white space (at least one
byte), `"HTTP/1."`, white space (possibly none), an optional sign, one or more digits,
`"\r\n"`, then anything. -/
def Lenient (s : List Byte) : Prop :=
  ∃ ws1 path ws2 ws3 sign digits rest : List Byte,
    s = GET ++ ws1 ++ path ++ ws2 ++ HTTP1 ++ ws3 ++ sign ++ digits ++ [13, 10] ++ rest ∧
    (∀ c ∈ ws1, isspace c = true) ∧
    path ≠ [] ∧ (∀ c ∈ path, isspace c = false) ∧
    ws2 ≠ [] ∧ (∀ c ∈ ws2, isspace c = true) ∧
    (∀ c ∈ ws3, isspace c = true) ∧
    (sign = [] ∨ sign = [43] ∨ sign = [45]) ∧
    digits ≠ [] ∧ (∀ c ∈ digits, isdigit c = true)

/-! ## Inputs used below -/

/-- The request line `GET /index.html HTTP/1.0` with its CRLF. -/
def requestLine : List Byte := bytes "GET /index.html HTTP/1.0\r\n"

/-- The empty line that ends a request. -/
def blankLine : List Byte := bytes "\r\n"

/-- The request line of the scenario `GET /secret/../../etc/passwd HTTP/1.0` with its
CRLF. -/
def secretLine : List Byte := bytes "GET /secret/../../etc/passwd HTTP/1.0\r\n"

/-- A file system whose only file is `./index.html`, with content `hi`. -/
def fsIndex : List Byte → Option (List Byte) :=
  fun p => if p = bytes "./index.html" then some (bytes "hi") else none

/-- A file system in which every `open` fails. -/
def fsEmpty : List Byte → Option (List Byte) := fun _ => none

/-- The 4096 bytes `GET /index.html HTTP/1.0\r\n` followed by 4070 times `a`: they fill
the request buffer and hold no `\r\n\r\n`. -/
def oversized : List Byte := requestLine ++ List.replicate 4070 97

/-! ## Lemmas on the string functions -/

theorem strstr_iff (haystack needle : List Byte) :
    strstr haystack needle = true ↔ needle <:+: haystack := by
  induction haystack with
  | nil => simp [strstr, List.isEmpty_iff]
  | cons c h ih =>
    simp only [strstr, Bool.or_eq_true, ih, List.infix_cons_iff]
    constructor
    · rintro (h1 | h1)
      · exact Or.inl (List.isPrefixOf_iff_prefix.mp h1)
      · exact Or.inr h1
    · rintro (h1 | h1)
      · exact Or.inl (List.isPrefixOf_iff_prefix.mpr h1)
      · exact Or.inr h1

theorem send_error_400 : send_error 400 = [Event.send error400 error400.length] := by
  decide

theorem toSizeT_ofNat (n : Nat) (h : n < 2 ^ 64) : toSizeT (n : Int) = n := by
  unfold toSizeT
  have h1 : ((n : Int) % (2 : Int) ^ 64) = (n : Int) := by
    apply Int.emod_eq_of_lt
    · exact Int.ofNat_nonneg n
    · exact_mod_cast h
  rw [h1]
  exact Int.toNat_natCast n

/-! ## Lemmas on the framing loop -/

/-- Running the loop on a script in two parts. -/
theorem frameLoop_append (beyond : List Byte) (s1 s2 : List RecvResult) (f : Frame) :
    frameLoop beyond (s1 ++ s2) f =
      match frameLoop beyond s1 f with
      | Framing.exited g => Framing.exited g
      | Framing.reading g => frameLoop beyond s2 g := by
  induction s1 generalizing f with
  | nil =>
    by_cases h : f.offset < 4096
    · simp [frameLoop, h]
    · cases s2 <;> simp [frameLoop, h]
  | cons r s1 ih =>
    simp only [List.cons_append, frameLoop]
    by_cases h : f.offset < 4096
    · simp only [h, if_true]
      split
      · rfl
      · exact ih _
    · simp [h]

/-- While the peer is closed and no terminator is in sight, the loop keeps calling
`recv` and its locals do not change. -/
theorem frameLoop_closed (beyond : List Byte) (f : Frame) (n : Nat)
    (hoff : f.offset < 4096)
    (hno : strstr (cstr (f.buffer.drop f.offset ++ beyond)) CRLFCRLF = false) :
    frameLoop beyond (List.replicate n RecvResult.closed) f = Framing.reading f := by
  induction n with
  | zero => simp [frameLoop, hoff]
  | succ n ih =>
    have h64 : f.offset < 2 ^ 64 := by omega
    simp only [List.replicate_succ, frameLoop, hoff, if_true, recv, hno, Bool.false_eq_true,
      if_false, add_zero, toSizeT_ofNat _ h64]
    exact ih

/-- The request line and the empty line arrive in two reads: after the second read
the loop is still running, with 28 bytes stored. -/
theorem frameLoop_two_segments (beyond : List Byte) :
    frameLoop beyond [RecvResult.data requestLine, RecvResult.data blankLine] frame0 =
      Framing.reading ⟨28, requestLine ++ blankLine ++ List.replicate 4068 0⟩ := by
  rfl

/-- The same for the request line of the scenario: after the second read the loop is
still running, with 41 bytes stored. -/
theorem frameLoop_secret_segments (beyond : List Byte) :
    frameLoop beyond [RecvResult.data secretLine, RecvResult.data blankLine] frame0 =
      Framing.reading ⟨41, secretLine ++ blankLine ++ List.replicate 4055 0⟩ := by
  rfl

/-- A read that fills the buffer ends the loop with the buffer holding what was read. -/
theorem frameLoop_oversized (beyond : List Byte) :
    ∃ offset, frameLoop beyond [RecvResult.data oversized] frame0 =
      Framing.exited ⟨offset, oversized⟩ := by
  have hrecv : recv (RecvResult.data oversized) frame0.buffer frame0.offset
      (4096 - frame0.offset) = (oversized, 4096) := by decide!
  have hoff : frame0.offset < 4096 := by decide
  simp only [frameLoop, hoff, if_true, hrecv]
  split
  · exact ⟨_, rfl⟩
  · have h2 : ¬ (toSizeT ((frame0.offset : Int) + 4096) < 4096) := by decide
    rw [if_neg h2]
    exact ⟨_, rfl⟩

theorem streamLoop_succ (n : Nat) (s : Stream) :
    streamLoop (n + 1) s = (streamBody s).2 ++ streamLoop n (streamBody s).1 := rfl

theorem readResults_pair (s : Stream) (fd ret : Int) (src : List Byte) (len : Nat)
    (es : List Event) :
    readResults ((s, [Event.read fd ret, Event.send src len]).2 ++ es)
      = ret :: readResults es := rfl

theorem sendLengths_pair (s : Stream) (fd ret : Int) (src : List Byte) (len : Nat)
    (es : List Event) :
    sendLengths ((s, [Event.read fd ret, Event.send src len]).2 ++ es)
      = len :: sendLengths es := rfl

/-- Once the file is exhausted every further round of the streaming loop reads again
(and gets 0) and sends again (0 bytes). -/
theorem streamLoop_at_eof (buffer : List Byte) (n : Nat) :
    readResults (streamLoop n ⟨3, [], buffer⟩) = List.replicate n 0 ∧
    sendLengths (streamLoop n ⟨3, [], buffer⟩) = List.replicate n 0 := by
  induction n with
  | zero => exact ⟨rfl, rfl⟩
  | succ n ih =>
    have hb : streamBody ⟨3, [], buffer⟩ =
        (⟨3, [], buffer⟩, [Event.read 3 0, Event.send buffer 0]) := by
      simp [streamBody, read, toSizeT]
    rw [streamLoop_succ, hb, readResults_pair, sendLengths_pair, ih.1, ih.2]
    exact ⟨rfl, rfl⟩

/-- On a descriptor that is not open every round reads -1 and calls `send` with the
length `(size_t)-1`. -/
theorem streamLoop_bad_fd (file buffer : List Byte) (n : Nat) :
    readResults (streamLoop n ⟨-1, file, buffer⟩) = List.replicate n (-1) ∧
    sendLengths (streamLoop n ⟨-1, file, buffer⟩) = List.replicate n (2 ^ 64 - 1) := by
  induction n with
  | zero => exact ⟨rfl, rfl⟩
  | succ n ih =>
    have hb : streamBody ⟨-1, file, buffer⟩ =
        (⟨-1, file, buffer⟩, [Event.read (-1) (-1), Event.send buffer (2 ^ 64 - 1)]) := by
      rfl
    rw [streamLoop_succ, hb, readResults_pair, sendLengths_pair, ih.1, ih.2]
    exact ⟨rfl, rfl⟩

/-! ## Lemmas on the scanner -/

theorem matchLit_ok (lit s rest : List Byte) (h : matchLit lit s = Lit.ok rest) :
    s = lit ++ rest := by
  induction lit generalizing s with
  | nil =>
    simp only [matchLit, Lit.ok.injEq] at h
    simp [h]
  | cons c cs ih =>
    cases s with
    | nil => simp [matchLit] at h
    | cons i s =>
      by_cases hic : i = c
      · simp only [matchLit, hic, if_true] at h
        rw [hic, ih s h]
        rfl
      · simp [matchLit, hic] at h

theorem matchLit_append (lit rest : List Byte) : matchLit lit (lit ++ rest) = Lit.ok rest := by
  induction lit with
  | nil => rfl
  | cons c cs ih => simp [matchLit, ih]

theorem skipSpace_split (s : List Byte) :
    ∃ ws, s = ws ++ skipSpace s ∧ ∀ c ∈ ws, isspace c = true :=
  ⟨s.takeWhile isspace, (List.takeWhile_append_dropWhile isspace s).symm,
    fun _ hc => List.mem_takeWhile_imp hc⟩

theorem scanToken_initial (s : List Byte) : scanToken s <+: s :=
  List.IsPrefix.trans ( List.take_prefix _ _) ( List.takeWhile_prefix _)

theorem scanToken_split (s : List Byte) :
    s = scanToken s ++ s.drop (scanToken s).length := by
  have h := List.prefix_iff_eq_take.mp (scanToken_initial s)
  conv_lhs => rw [← List.take_append_drop (scanToken s).length s, ← h]

theorem scanToken_nonspace (s : List Byte) : ∀ c ∈ scanToken s, isspace c = false := by
  intro c hc
  have h1 : c ∈ s.takeWhile (fun c => !isspace c) := List.mem_of_mem_take hc
  simpa using List.mem_takeWhile_imp h1

theorem scanToken_eq_takeWhile (s : List Byte) (h : (scanToken s).length ≤ 4095) :
    scanToken s = s.takeWhile (fun c => !isspace c) := by
  unfold scanToken at h ⊢
  apply List.take_of_length_le
  rw [List.length_take] at h
  omega

theorem dropWhile_head_false {p : Byte → Bool} (l t : List Byte) (a : Byte)
    (h : l.dropWhile p = a :: t) : p a = false := by
  induction l with
  | nil => simp at h
  | cons x l ih =>
    by_cases hx : p x = true
    · rw [List.dropWhile_cons_of_pos hx] at h
      exact ih h
    · rw [List.dropWhile_cons_of_neg hx] at h
      simp only [List.cons.injEq] at h
      rw [← h.1]
      simpa using hx

/-- After a token that was not cut at 4096 bytes the input is at its end or at a
white-space byte. -/
theorem after_token_space (s t : List Byte) (a : Byte) (h : (scanToken s).length ≤ 4095)
    (hd : s.drop (scanToken s).length = a :: t) : isspace a = true := by
  have e := scanToken_eq_takeWhile s h
  have hsplit := List.takeWhile_append_dropWhile (fun c => !isspace c) s
  have h2 : s.drop (scanToken s).length = s.dropWhile (fun c => !isspace c) := by
    rw [e]
    calc s.drop (s.takeWhile (fun c => !isspace c)).length
        = (s.takeWhile (fun c => !isspace c) ++ s.dropWhile (fun c => !isspace c)).drop
            (s.takeWhile (fun c => !isspace c)).length := by rw [hsplit]
      _ = s.dropWhile (fun c => !isspace c) := List.drop_left _ _
  rw [h2] at hd
  have := dropWhile_head_false _ _ _ hd
  simpa using this

theorem scanToken_length_le (s : List Byte) : (scanToken s).length ≤ s.length :=
  (scanToken_initial s).length_le

theorem skipSign_split (s : List Byte) :
    ∃ sign, s = sign ++ skipSign s ∧ (sign = [] ∨ sign = [43] ∨ sign = [45]) := by
  cases s with
  | nil => exact ⟨[], rfl, Or.inl rfl⟩
  | cons c s =>
    by_cases h : (c == 43 || c == 45) = true
    · refine ⟨[c], by simp [skipSign, h], ?_⟩
      simp only [Bool.or_eq_true, beq_iff_eq] at h
      rcases h with h | h
      · exact Or.inr (Or.inl (by rw [h]))
      · exact Or.inr (Or.inr (by rw [h]))
    · exact ⟨[], by simp [skipSign, h], Or.inl rfl⟩

theorem scanInt_some (s rest : List Byte) (h : scanInt s = some rest) :
    ∃ ws sign digits, s = ws ++ sign ++ digits ++ rest ∧
      (∀ c ∈ ws, isspace c = true) ∧ (sign = [] ∨ sign = [43] ∨ sign = [45]) ∧
      digits ≠ [] ∧ (∀ c ∈ digits, isdigit c = true) := by
  obtain ⟨ws, hws, hsp⟩ := skipSpace_split s
  obtain ⟨sign, hsign, hsg⟩ := skipSign_split (skipSpace s)
  unfold scanInt at h
  cases hk : skipSign (skipSpace s) with
  | nil => simp [hk] at h
  | cons c t =>
    simp only [hk] at h
    by_cases hd : isdigit c = true
    · simp only [hd, if_true, Option.some.injEq] at h
      refine ⟨ws, sign, c :: t.takeWhile isdigit, ?_, hsp, hsg, by simp, ?_⟩
      · rw [hk] at hsign
        rw [← h, List.append_assoc, List.append_assoc, List.cons_append,
          List.takeWhile_append_dropWhile, ← hsign, ← hws]
      · intro x hx
        rcases List.mem_cons.mp hx with hx | hx
        · rw [hx]; exact hd
        · exact List.mem_takeWhile_imp hx
    · simp [hd] at h

/-- Soundness of the scanner: four items with `\r` and `\n` as the last two are read
only from a string of the lenient form. -/
theorem lenient_of_scan (s : List Byte) (h4 : (sscanf_request s).ret = 4)
    (hcr : (sscanf_request s).cr = 13) (hnl : (sscanf_request s).nl = 10)
    (hlen : (sscanf_request s).buffer.length ≤ 4095) : Lenient s := by
  unfold sscanf_request at h4 hcr hnl hlen
  cases hm : matchLit GET s with
  | eof => simp [hm] at h4
  | mismatch => simp [hm] at h4
  | ok s1 =>
    simp only [hm] at h4 hcr hnl hlen
    by_cases htok : scanToken (skipSpace s1) = []
    · simp [htok] at h4
    · simp only [htok, if_false] at h4 hcr hnl hlen
      cases hm2 : matchLit HTTP1
          (skipSpace ((skipSpace s1).drop (scanToken (skipSpace s1)).length)) with
      | eof => simp [hm2] at h4
      | mismatch => simp [hm2] at h4
      | ok s3 =>
        simp only [hm2] at h4 hcr hnl hlen
        cases hi : scanInt s3 with
        | none => simp [hi] at h4
        | some r =>
          simp only [hi] at h4 hcr hnl hlen
          match r, hi, h4, hcr, hnl, hlen with
          | [], _, h4, _, _, _ => simp at h4
          | [_], _, h4, _, _, _ => simp at h4
          | cr :: nl :: rest, hi, _, hcr, hnl, hlen =>
            simp only at hcr hnl hlen
            subst hcr
            subst hnl
            obtain ⟨ws1, hws1, hsp1⟩ := skipSpace_split s1
            obtain ⟨ws2, hws2, hsp2⟩ :=
              skipSpace_split ((skipSpace s1).drop (scanToken (skipSpace s1)).length)
            obtain ⟨ws3, sign, digits, hint, hsp3, hsg, hne, hdig⟩ := scanInt_some _ _ hi
            have e1 := matchLit_ok _ _ _ hm
            have e2 := matchLit_ok _ _ _ hm2
            have hws2ne : ws2 ≠ [] := by
              intro h0
              rw [h0, List.nil_append, e2] at hws2
              have := after_token_space _ _ _ hlen hws2
              simp [isspace] at this
            refine ⟨ws1, scanToken (skipSpace s1), ws2, ws3, sign, digits, rest, ?_, hsp1, htok,
              scanToken_nonspace _, hws2ne, hsp2, hsp3, hsg, hne, hdig⟩
            have e3 := scanToken_split (skipSpace s1)
            have e4 : s = GET ++ (ws1 ++ (scanToken (skipSpace s1) ++ (ws2 ++ (HTTP1 ++ s3)))) := by
              rw [← e2, ← hws2, ← e3, ← hws1]
              exact e1
            rw [e4, hint]
            simp [List.append_assoc]

/-- Every string of the lenient form begins with `GET`. -/
theorem Lenient.starts_GET {s : List Byte} (h : Lenient s) : GET <+: s := by
  obtain ⟨ws1, path, ws2, ws3, sign, digits, rest, hs, _⟩ := h
  exact ⟨ws1 ++ path ++ ws2 ++ HTTP1 ++ ws3 ++ sign ++ digits ++ [13, 10] ++ rest,
    by rw [hs]; simp [List.append_assoc]⟩

/-- The string stored by `%4096s` is no longer than the input. -/
theorem scan_buffer_length_le (s : List Byte) :
    (sscanf_request s).buffer.length ≤ s.length := by
  unfold sscanf_request
  cases hm : matchLit GET s with
  | eof => simp
  | mismatch => simp
  | ok s1 =>
    have e1 := matchLit_ok _ _ _ hm
    have h1 : (scanToken (skipSpace s1)).length ≤ s.length := by
      have := scanToken_length_le (skipSpace s1)
      have h2 : (skipSpace s1).length ≤ s1.length := (List.dropWhile_suffix _).length_le
      have h3 : s1.length ≤ s.length := by rw [e1]; simp
      omega
    simp only
    split
    · simp
    · split
      · exact h1
      · exact h1
      · split <;> exact h1

/-- A string that is not of the lenient form makes `parseRequest` return 0, provided it
has fewer than 4096 bytes. -/
theorem parseRequest_none_of_not_lenient (request : List Byte)
    (hlen : (cstr request).length < 4096) (hnot : ¬ Lenient (cstr request)) :
    parseRequest request = Ret.val (request, none) := by
  have hb := scan_buffer_length_le (cstr request)
  unfold parseRequest
  have h1 : ¬ (4096 < (sscanf_request (cstr request)).buffer.length + 1) := by omega
  have h1b : (sscanf_request (cstr request)).buffer.length ≤ 4095 := by omega
  simp only [h1, if_false]
  by_cases hc : ((sscanf_request (cstr request)).ret != 4
      || (sscanf_request (cstr request)).cr != 13
      || (sscanf_request (cstr request)).nl != 10) = true
  · simp only [hc, if_true]
  · exfalso
    apply hnot
    simp only [Bool.or_eq_true, bne_iff_ne, ne_eq, not_or, not_not] at hc
    exact lenient_of_scan _ hc.1.1 hc.1.2 hc.2 h1b

/-! ## Completeness of the scanner -/

theorem isspace_of_isdigit {c : Byte} (h : isdigit c = true) : isspace c = false := by
  simp only [isdigit, Bool.and_eq_true, decide_eq_true_eq] at h
  unfold Byte at *
  have h1 : ¬ (c = 32) := by omega
  have h2 : ¬ (c ≤ 13) := by omega
  simp [isspace, h1, h2]

theorem ne_zero_of_isspace {c : Byte} (h : isspace c = true) : c ≠ 0 := by
  intro h0
  rw [h0] at h
  simp [isspace] at h

theorem ne_zero_of_isdigit {c : Byte} (h : isdigit c = true) : c ≠ 0 := by
  simp only [isdigit, Bool.and_eq_true, decide_eq_true_eq] at h
  unfold Byte at *
  omega

theorem cstr_append (l r : List Byte) (h : ∀ c ∈ l, c ≠ 0) : cstr (l ++ r) = l ++ cstr r := by
  induction l with
  | nil => rfl
  | cons a l ih =>
    have ha : a ≠ 0 := h a (List.mem_cons_self _ _)
    have hl : ∀ c ∈ l, c ≠ 0 := fun c hc => h c (List.mem_cons_of_mem _ hc)
    have := ih hl
    unfold cstr at this ⊢
    have ha2 : (fun c : Byte => c != 0) a = true := by simpa using ha
    rw [List.cons_append,
      List.takeWhile_cons_of_pos (p := fun c : Byte => c != 0) (a := a) ha2, this]
    rfl

theorem takeWhile_append_stop {p : Byte → Bool} (l r : List Byte) (a : Byte)
    (hl : ∀ c ∈ l, p c = true) (ha : p a = false) :
    (l ++ a :: r).takeWhile p = l := by
  induction l with
  | nil => simp [List.takeWhile, ha]
  | cons x l ih =>
    have hx : p x = true := hl x (List.mem_cons_self _ _)
    have := ih (fun c hc => hl c (List.mem_cons_of_mem _ hc))
    simp [List.takeWhile, hx, this]

theorem dropWhile_append_stop {p : Byte → Bool} (l r : List Byte) (a : Byte)
    (hl : ∀ c ∈ l, p c = true) (ha : p a = false) :
    (l ++ a :: r).dropWhile p = a :: r := by
  induction l with
  | nil => simp [List.dropWhile, ha]
  | cons x l ih =>
    have hx : p x = true := hl x (List.mem_cons_self _ _)
    have := ih (fun c hc => hl c (List.mem_cons_of_mem _ hc))
    simp [List.dropWhile, hx, this]

/-- White space in front of a byte that is none is skipped and no more. -/
theorem skipSpace_append (ws r : List Byte) (a : Byte) (hws : ∀ c ∈ ws, isspace c = true)
    (ha : isspace a = false) : skipSpace (ws ++ a :: r) = a :: r :=
  dropWhile_append_stop ws r a hws ha

/-- A token of at most 4095 bytes in front of a white-space byte is read whole. -/
theorem scanToken_append (path r : List Byte) (a : Byte)
    (hpath : ∀ c ∈ path, isspace c = false) (hlen : path.length ≤ 4095)
    (ha : isspace a = true) : scanToken (path ++ a :: r) = path := by
  unfold scanToken
  rw [takeWhile_append_stop path r a (fun c hc => by simp [hpath c hc]) (by simp [ha])]
  exact List.take_of_length_le (by omega)

/-- The conversion `%d` on white space, an optional sign and digits in front of `\r`. -/
theorem scanInt_append (ws3 sign digits r : List Byte) (hws : ∀ c ∈ ws3, isspace c = true)
    (hsg : sign = [] ∨ sign = [43] ∨ sign = [45])
    (hne : digits ≠ []) (hdig : ∀ c ∈ digits, isdigit c = true) :
    scanInt (ws3 ++ (sign ++ (digits ++ 13 :: r))) = some (13 :: r) := by
  obtain ⟨d, ds, rfl⟩ := List.exists_cons_of_ne_nil hne
  have hd : isdigit d = true := hdig d (List.mem_cons_self _ _)
  have hds : ∀ c ∈ ds, isdigit c = true := fun c hc => hdig c (List.mem_cons_of_mem _ hc)
  have hdsp : isspace d = false := isspace_of_isdigit hd
  have hd2 : (d == 43 || d == 45) = false := by
    simp only [isdigit, Bool.and_eq_true, decide_eq_true_eq] at hd
    simp only [Bool.or_eq_false_iff, beq_eq_false_iff_ne, ne_eq]
    unfold Byte at *
    omega
  have h13 : isdigit 13 = false := by decide
  have hdrop : (ds ++ 13 :: r).dropWhile isdigit = 13 :: r :=
    dropWhile_append_stop ds r 13 hds h13
  unfold scanInt
  rcases hsg with h | h | h
  · subst h
    rw [List.nil_append, List.cons_append, skipSpace_append ws3 _ d hws hdsp]
    simp only [skipSign, hd2, Bool.false_eq_true, if_false, hd, if_true, hdrop]
  · subst h
    rw [List.singleton_append, skipSpace_append ws3 _ 43 hws (by decide)]
    simp only [skipSign, beq_self_eq_true, Bool.true_or, if_true, List.cons_append, hd, hdrop]
  · subst h
    rw [List.singleton_append, skipSpace_append ws3 _ 45 hws (by decide)]
    have h45 : ((45 : Byte) == 43 || (45 : Byte) == 45) = true := by decide
    simp only [skipSign, h45, if_true, List.cons_append, hd, hdrop]

/-- Completeness of the scanner: from a string of the lenient form whose token has at
most 4095 bytes the four items are read, and the token is stored unchanged. -/
theorem scan_of_lenient (ws1 path ws2 ws3 sign digits r : List Byte)
    (hws1 : ∀ c ∈ ws1, isspace c = true)
    (hne : path ≠ []) (hpath : ∀ c ∈ path, isspace c = false) (hlen : path.length ≤ 4095)
    (hws2ne : ws2 ≠ []) (hws2 : ∀ c ∈ ws2, isspace c = true)
    (hws3 : ∀ c ∈ ws3, isspace c = true)
    (hsg : sign = [] ∨ sign = [43] ∨ sign = [45])
    (hdne : digits ≠ []) (hdig : ∀ c ∈ digits, isdigit c = true) :
    sscanf_request
        (GET ++ (ws1 ++ (path ++ (ws2 ++ (HTTP1 ++ (ws3 ++ (sign ++ (digits ++ 13 :: 10 :: r))))))))
      = ⟨4, path, 13, 10⟩ := by
  obtain ⟨p, ps, rfl⟩ := List.exists_cons_of_ne_nil hne
  obtain ⟨b, bs, rfl⟩ := List.exists_cons_of_ne_nil hws2ne
  have hp : isspace p = false := hpath p (List.mem_cons_self _ _)
  have hb : isspace b = true := hws2 b (List.mem_cons_self _ _)
  have e1 : skipSpace (ws1 ++ (p :: ps ++ (b :: bs ++
      (HTTP1 ++ (ws3 ++ (sign ++ (digits ++ 13 :: 10 :: r)))))))
      = p :: ps ++ (b :: bs ++ (HTTP1 ++ (ws3 ++ (sign ++ (digits ++ 13 :: 10 :: r))))) := by
    rw [List.cons_append]
    exact skipSpace_append ws1 _ p hws1 hp
  have e2 : scanToken (p :: ps ++ (b :: bs ++
      (HTTP1 ++ (ws3 ++ (sign ++ (digits ++ 13 :: 10 :: r))))))
      = p :: ps := by
    rw [List.cons_append b]
    exact scanToken_append (p :: ps) _ b hpath hlen hb
  have e3 : skipSpace (b :: bs ++ (HTTP1 ++ (ws3 ++ (sign ++ (digits ++ 13 :: 10 :: r)))))
      = HTTP1 ++ (ws3 ++ (sign ++ (digits ++ 13 :: 10 :: r))) :=
    skipSpace_append (b :: bs) _ 72 hws2 (by decide)
  have e4 := scanInt_append ws3 sign digits (10 :: r) hws3 hsg hdne hdig
  unfold sscanf_request
  rw [matchLit_append]
  simp only [e1, e2, List.drop_left, e3, matchLit_append, e4]
  simp

/-- A request of the lenient form whose token has at most 4095 bytes, none of them NUL,
is accepted by `parseRequest`, which returns the token and leaves the request as it
was. -/
theorem parseRequest_of_lenient (ws1 path ws2 ws3 sign digits rest : List Byte)
    (hws1 : ∀ c ∈ ws1, isspace c = true)
    (hne : path ≠ []) (hpath : ∀ c ∈ path, isspace c = false) (hnul : ∀ c ∈ path, c ≠ 0)
    (hlen : path.length ≤ 4095)
    (hws2ne : ws2 ≠ []) (hws2 : ∀ c ∈ ws2, isspace c = true)
    (hws3 : ∀ c ∈ ws3, isspace c = true)
    (hsg : sign = [] ∨ sign = [43] ∨ sign = [45])
    (hdne : digits ≠ []) (hdig : ∀ c ∈ digits, isdigit c = true) :
    parseRequest
        (GET ++ (ws1 ++ (path ++ (ws2 ++ (HTTP1 ++ (ws3 ++ (sign ++ (digits ++ 13 :: 10 :: rest))))))))
      = Ret.val
        (GET ++ (ws1 ++ (path ++ (ws2 ++ (HTTP1 ++ (ws3 ++ (sign ++ (digits ++ 13 :: 10 :: rest))))))),
          some path) := by
  have hsign : ∀ c ∈ sign, c ≠ 0 := by
    intro c hc
    rcases hsg with h | h | h <;> rw [h] at hc <;> simp at hc <;> rw [hc] <;> decide
  have hc : cstr
      (GET ++ (ws1 ++ (path ++ (ws2 ++ (HTTP1 ++ (ws3 ++ (sign ++ (digits ++ 13 :: 10 :: rest))))))))
      = GET ++ (ws1 ++ (path ++ (ws2 ++ (HTTP1 ++ (ws3 ++ (sign ++
          (digits ++ 13 :: 10 :: cstr rest))))))) := by
    rw [cstr_append GET _ (by decide),
      cstr_append ws1 _ (fun c h => ne_zero_of_isspace (hws1 c h)),
      cstr_append path _ hnul,
      cstr_append ws2 _ (fun c h => ne_zero_of_isspace (hws2 c h)),
      cstr_append HTTP1 _ (by decide),
      cstr_append ws3 _ (fun c h => ne_zero_of_isspace (hws3 c h)),
      cstr_append sign _ hsign,
      cstr_append digits _ (fun c h => ne_zero_of_isdigit (hdig c h))]
    rfl
  unfold parseRequest
  rw [hc, scan_of_lenient ws1 path ws2 ws3 sign digits (cstr rest) hws1 hne hpath hlen hws2ne
    hws2 hws3 hsg hdne hdig]
  have h1 : ¬ (4096 < path.length + 1) := by omega
  simp [h1]

/-! ## Lemmas on `serve_request` -/

theorem SpecLine.starts {s : List Byte} (h : SpecLine s) : bytes "GET " <+: s := by
  obtain ⟨path, digits, rest, hs, _⟩ := h
  exact ⟨path ++ bytes " HTTP/1." ++ digits ++ bytes "\r\n" ++ rest,
    by rw [hs]; simp [List.append_assoc]⟩

/-- What the client gets and what is opened when the only event is the 400 response. -/
theorem events_of_400 (o : Outcome)
    (h : o = Outcome.returned [Event.send error400 error400.length]) (n : Nat) :
    sentBytes (o.events n) = some error400 ∧ openedPaths (o.events n) = [] := by
  subst h
  have h1 : sentBytes [Event.send error400 error400.length] = some error400 := by decide
  exact ⟨h1, rfl⟩

/-- The two rejections of `serve_request` both return after `send_error(client_fd, 400)`. -/
theorem serve_request_rejects (w : World) (f : Frame) (request : List Byte)
    (result : Option (List Byte))
    (hframe : frameLoop w.beyond w.script frame0 = Framing.exited f)
    (hparse : parseRequest (f.buffer ++ w.beyond) = Ret.val (request, result))
    (hbad : ∀ target, result = some target →
      (target.headD 0 != 47 || strstr target DOTDOT) = true) :
    serve_request w = Outcome.returned [Event.send error400 error400.length] := by
  unfold serve_request
  rw [hframe]
  simp only
  rw [hparse]
  cases result with
  | none => exact congrArg Outcome.returned send_error_400
  | some target =>
    simp only [hbad target rfl, if_true]
    exact congrArg Outcome.returned send_error_400

/-! ## A request that arrives in one read -/

theorem cstr_zero (k : Nat) (hk : 0 < k) (r : List Byte) :
    cstr (List.replicate k 0 ++ r) = [] := by
  obtain ⟨j, rfl⟩ := Nat.exists_eq_succ_of_ne_zero (Nat.pos_iff_ne_zero.mp hk)
  rfl

/-- A read of fewer than 4096 bytes, none of them NUL, that holds `\r\n\r\n` ends the
framing loop at once, with the bytes at the start of the buffer. -/
theorem frameLoop_single_read (beyond chunk : List Byte) (hlen : chunk.length < 4096)
    (hnz : ∀ c ∈ chunk, c ≠ 0) (hterm : CRLFCRLF <:+: chunk) :
    frameLoop beyond [RecvResult.data chunk] frame0 =
      Framing.exited ⟨0, chunk ++ List.replicate (4096 - chunk.length) 0⟩ := by
  have hoff : frame0.offset < 4096 := by decide
  have hrecv : recv (RecvResult.data chunk) frame0.buffer frame0.offset (4096 - frame0.offset)
      = (chunk ++ List.replicate (4096 - chunk.length) 0, (chunk.length : Int)) := by
    have h1 : chunk.take 4096 = chunk := List.take_of_length_le (by omega)
    have h0 : frame0.offset = 0 := rfl
    have hbuf : frame0.buffer = List.replicate 4096 0 := rfl
    simp only [recv, h0, hbuf, Nat.sub_zero, h1, List.take_zero, List.nil_append, Nat.zero_add,
      List.drop_replicate]
  have hstr : strstr (cstr ((chunk ++ List.replicate (4096 - chunk.length) 0).drop frame0.offset
      ++ beyond)) CRLFCRLF = true := by
    have h0 : frame0.offset = 0 := rfl
    rw [h0, List.drop_zero, List.append_assoc, cstr_append chunk _ hnz,
      cstr_zero _ (by omega), List.append_nil]
    exact (strstr_iff _ _).mpr hterm
  simp only [frameLoop, hoff, if_true, hrecv, hstr]
  rfl

theorem sentBytes_read (fd ret : Int) (es : List Event) :
    sentBytes (Event.read fd ret :: es) = sentBytes es := rfl

theorem sentBytes_openRO (path : List Byte) (fd : Int) (es : List Event) :
    sentBytes (Event.openRO path fd :: es) = sentBytes es := rfl

theorem sentBytes_send (src : List Byte) (len : Nat) (es : List Event) (h : len ≤ src.length) :
    sentBytes (Event.send src len :: es) = (sentBytes es).map (fun bs => src.take len ++ bs) := by
  simp [sentBytes, h]

/-- The streaming loop puts the whole file on the connection, 4096 bytes a round, and
nothing after it. -/
theorem streamLoop_sends_file (n : Nat) (file buffer : List Byte)
    (h : file.length ≤ 4096 * n) : sentBytes (streamLoop n ⟨3, file, buffer⟩) = some file := by
  induction n generalizing file buffer with
  | zero =>
    have : file = [] := List.length_eq_zero.mp (by omega)
    subst this
    rfl
  | succ n ih =>
    have hb : streamBody ⟨3, file, buffer⟩ =
        (⟨3, file.drop 4096, file.take 4096 ++ buffer.drop (file.take 4096).length⟩,
          [Event.read 3 (file.take 4096).length,
            Event.send (file.take 4096 ++ buffer.drop (file.take 4096).length)
              (file.take 4096).length]) := by
      have h64 : (file.take 4096).length < 2 ^ 64 := by
        rw [List.length_take]
        omega
      have h3 : ¬ ((3 : Int) < 0) := by decide
      simp only [streamBody, read, h3, if_false, toSizeT_ofNat _ h64]
    have hrest : (file.drop 4096).length ≤ 4096 * n := by
      rw [List.length_drop]
      omega
    rw [streamLoop_succ, hb]
    show sentBytes (Event.read 3 _ :: Event.send _ _ :: streamLoop n _) = some file
    rw [sentBytes_read, sentBytes_send _ _ _ (by simp), ih _ _ hrest]
    simp

/-- The happy path of `serve_request`: a well-formed request that arrives in one read,
for a target that starts with `/` and holds no `/../`, whose file `"." ++ path` opens.
The 200 header is sent, the file is opened, the streaming loop is entered, and once the
loop has run often enough the bytes sent are the header followed by the file. -/
theorem serve_request_single_read (beyond path digits content : List Byte)
    (fs : List Byte → Option (List Byte))
    (hne : path ≠ []) (hpath : ∀ c ∈ path, isspace c = false ∧ c ≠ 0)
    (hslash : path.head? = some 47) (hdots : ¬ DOTDOT <:+: path)
    (hdne : digits ≠ []) (hdig : ∀ c ∈ digits, isdigit c = true)
    (hlen : (bytes "GET " ++ path ++ bytes " HTTP/1." ++ digits ++ bytes "\r\n\r\n").length < 4096)
    (hfile : fs (46 :: path) = some content) :
    serve_request
        ⟨[RecvResult.data (bytes "GET " ++ path ++ bytes " HTTP/1." ++ digits ++ bytes "\r\n\r\n")],
          beyond, fs⟩ =
      Outcome.streaming
        [Event.send response_str response_str.length, Event.openRO (46 :: path) 3]
        ⟨3, content, bytes "GET " ++ path ++ bytes " HTTP/1." ++ digits ++ bytes "\r\n\r\n" ++
          List.replicate (4096 -
            (bytes "GET " ++ path ++ bytes " HTTP/1." ++ digits ++ bytes "\r\n\r\n").length) 0⟩ ∧
    ∀ n, content.length ≤ 4096 * n →
      sentBytes ((serve_request
        ⟨[RecvResult.data (bytes "GET " ++ path ++ bytes " HTTP/1." ++ digits ++ bytes "\r\n\r\n")],
          beyond, fs⟩).events n) = some (response_str ++ content) := by
  have h1 : bytes "GET " = GET ++ [32] := by decide
  have h2 : bytes " HTTP/1." = [32] ++ HTTP1 := by decide
  have h3 : bytes "\r\n\r\n" = [13, 10, 13, 10] := by decide
  have hplen : path.length ≤ 4095 := by
    simp only [List.length_append] at hlen
    omega
  generalize hchunk : bytes "GET " ++ path ++ bytes " HTTP/1." ++ digits ++ bytes "\r\n\r\n"
    = chunk at hlen ⊢
  have hnz : ∀ c ∈ chunk, c ≠ 0 := by
    intro c hc
    rw [← hchunk, h1, h2, h3] at hc
    simp only [List.mem_append, List.mem_cons, List.mem_singleton, GET, HTTP1,
      List.not_mem_nil, or_false] at hc
    rcases hc with (((hc | hc) | hc) | hc) | hc
    · rcases hc with hc | hc
      · rcases hc with hc | hc | hc <;> rw [hc] <;> decide
      · rw [hc]; decide
    · exact (hpath c hc).2
    · rcases hc with hc | hc
      · rw [hc]; decide
      · rcases hc with hc | hc | hc | hc | hc | hc | hc <;> rw [hc] <;> decide
    · exact ne_zero_of_isdigit (hdig c hc)
    · rcases hc with hc | hc | hc | hc <;> rw [hc] <;> decide
  have hterm : CRLFCRLF <:+: chunk :=
    ⟨bytes "GET " ++ path ++ bytes " HTTP/1." ++ digits, [], by
      rw [← hchunk, h3]; simp [CRLFCRLF]⟩
  have hframe := frameLoop_single_read beyond chunk hlen hnz hterm
  have hparse : parseRequest (chunk ++ List.replicate (4096 - chunk.length) 0 ++ beyond) =
      Ret.val (chunk ++ List.replicate (4096 - chunk.length) 0 ++ beyond, some path) := by
    have e : chunk ++ List.replicate (4096 - chunk.length) 0 ++ beyond
        = GET ++ ([32] ++ (path ++ ([32] ++ (HTTP1 ++ ([] ++ ([] ++ (digits ++ 13 :: 10 ::
            ([13, 10] ++ List.replicate (4096 - chunk.length) 0 ++ beyond)))))))) := by
      rw [← hchunk, h1, h2, h3]
      simp [List.append_assoc]
    rw [e]
    exact parseRequest_of_lenient [32] path [32] [] [] digits _
      (fun c hc => by rw [List.mem_singleton.mp hc]; decide) hne (fun c hc => (hpath c hc).1)
      (fun c hc => (hpath c hc).2) hplen (by simp)
      (fun c hc => by rw [List.mem_singleton.mp hc]; decide) (fun c hc => by simp at hc)
      (Or.inl rfl) hdne hdig
  have hhead : (path.headD 0 != 47) = false := by
    cases path with
    | nil => exact absurd rfl hne
    | cons a t =>
      simp only [List.head?_cons, Option.some.injEq] at hslash
      simp [hslash]
  have hstr : strstr path DOTDOT = false := by
    cases hs : strstr path DOTDOT with
    | false => rfl
    | true => exact absurd ((strstr_iff _ _).mp hs) hdots
  have hserve : serve_request ⟨[RecvResult.data chunk], beyond, fs⟩ =
      Outcome.streaming
        [Event.send response_str response_str.length, Event.openRO (46 :: path) 3]
        ⟨3, content, chunk ++ List.replicate (4096 - chunk.length) 0⟩ := by
    unfold serve_request
    simp only [hframe, hparse, hhead, hstr, hfile]
    rfl
  refine ⟨hserve, ?_⟩
  intro n hn
  rw [hserve]
  show sentBytes (Event.send response_str response_str.length :: Event.openRO _ _ ::
    streamLoop n _) = some (response_str ++ content)
  rw [sentBytes_send _ _ _ (Nat.le_refl _), sentBytes_openRO, streamLoop_sends_file n _ _ hn]
  simp

/-! ## Rejections once the request has been framed -/

/-- The path check, once the request has been framed: when the framing loop has been
left, `parseRequest` returns a target, and the target does not start with `/` or
contains `/../`, then `serve_request` returns after one `send` of the 400 response: the
client gets exactly `HTTP/1.0 400 Bad Request\r\nConnection: close\r\n\r\n` and no file
is opened. -/
theorem bad_target_gets_400 (w : World) (f : Frame) (request target : List Byte)
    (hframe : frameLoop w.beyond w.script frame0 = Framing.exited f)
    (hparse : parseRequest (f.buffer ++ w.beyond) = Ret.val (request, some target))
    (hbad : target.head? ≠ some 47 ∨ DOTDOT <:+: target) :
    serve_request w = Outcome.returned [Event.send error400 error400.length] ∧
    ∀ n, sentBytes ((serve_request w).events n) = some error400 ∧
      openedPaths ((serve_request w).events n) = [] := by
  have h : serve_request w = Outcome.returned [Event.send error400 error400.length] := by
    apply serve_request_rejects w f request (some target) hframe hparse
    intro t ht
    simp only [Option.some.injEq] at ht
    subst ht
    rcases hbad with hb | hb
    · have : (target.headD 0 != 47) = true := by
        cases target with
        | nil => decide
        | cons a t =>
          simp only [List.head?_cons, ne_eq, Option.some.injEq] at hb
          simpa using hb
      rw [this, Bool.true_or]
    · rw [(strstr_iff target DOTDOT).mpr hb, Bool.or_true]
  exact ⟨h, events_of_400 _ h⟩

/-- The path check at the scenario `GET /secret/../../etc/passwd HTTP/1.0\r\n\r\n` that
arrives in one read: the request is framed, its target is parsed, the target contains
`/../`, and the response is 400. -/
theorem bad_target_gets_400_scenario :
    frameLoop [] [RecvResult.data (bytes "GET /secret/../../etc/passwd HTTP/1.0\r\n\r\n")] frame0
      = Framing.exited
        ⟨0, bytes "GET /secret/../../etc/passwd HTTP/1.0\r\n\r\n" ++ List.replicate 4055 0⟩ ∧
    parseRequest (bytes "GET /secret/../../etc/passwd HTTP/1.0\r\n\r\n" ++ List.replicate 4055 0
        ++ [])
      = Ret.val (bytes "GET /secret/../../etc/passwd HTTP/1.0\r\n\r\n" ++ List.replicate 4055 0
        ++ [], some (bytes "/secret/../../etc/passwd")) ∧
    DOTDOT <:+: bytes "/secret/../../etc/passwd" ∧
    serve_request ⟨[RecvResult.data (bytes "GET /secret/../../etc/passwd HTTP/1.0\r\n\r\n")], [],
        fsIndex⟩
      = Outcome.returned [Event.send error400 error400.length] :=
  ⟨by rfl, by rfl, (strstr_iff _ _).mp (by decide),
    (bad_target_gets_400
      ⟨[RecvResult.data (bytes "GET /secret/../../etc/passwd HTTP/1.0\r\n\r\n")], [], fsIndex⟩
      ⟨0, bytes "GET /secret/../../etc/passwd HTTP/1.0\r\n\r\n" ++ List.replicate 4055 0⟩
      _ (bytes "/secret/../../etc/passwd") (by rfl) (by rfl)
      (Or.inr ((strstr_iff _ _).mp (by decide)))).1⟩

/-- What the parser does reject, once the request has been framed: when the framing loop
has been left with a request string of fewer than 4096 bytes that is not of the lenient
form read by the `sscanf` format, as is every string that does not begin with `GET`,
then `parseRequest` returns 0 and `serve_request` returns after one `send` of the 400
response: the client gets exactly `HTTP/1.0 400 Bad Request\r\nConnection: close\r\n\r\n`
and no file is opened. -/
theorem malformed_request_gets_400 (w : World) (f : Frame)
    (hframe : frameLoop w.beyond w.script frame0 = Framing.exited f)
    (hlen : (cstr (f.buffer ++ w.beyond)).length < 4096)
    (hnot : ¬ Lenient (cstr (f.buffer ++ w.beyond)) ∨ ¬ GET <+: cstr (f.buffer ++ w.beyond)) :
    parseRequest (f.buffer ++ w.beyond) = Ret.val (f.buffer ++ w.beyond, none) ∧
    serve_request w = Outcome.returned [Event.send error400 error400.length] ∧
    ∀ n, sentBytes ((serve_request w).events n) = some error400 ∧
      openedPaths ((serve_request w).events n) = [] := by
  have hnl : ¬ Lenient (cstr (f.buffer ++ w.beyond)) :=
    hnot.elim id (fun h hl => h hl.starts_GET)
  have hp := parseRequest_none_of_not_lenient _ hlen hnl
  have h : serve_request w = Outcome.returned [Event.send error400 error400.length] :=
    serve_request_rejects w f _ none hframe hp (fun t ht => by simp at ht)
  exact ⟨hp, h, events_of_400 _ h⟩

/-- The rejection at the scenario `POST /index.html HTTP/1.0\r\n\r\n` that arrives in
one read. -/
theorem malformed_request_gets_400_scenario :
    frameLoop [] [RecvResult.data (bytes "POST /index.html HTTP/1.0\r\n\r\n")] frame0
      = Framing.exited ⟨0, bytes "POST /index.html HTTP/1.0\r\n\r\n" ++ List.replicate 4067 0⟩ ∧
    (cstr (bytes "POST /index.html HTTP/1.0\r\n\r\n" ++ List.replicate 4067 0 ++ [])).length
      < 4096 ∧
    ¬ GET <+: cstr (bytes "POST /index.html HTTP/1.0\r\n\r\n" ++ List.replicate 4067 0 ++ []) ∧
    parseRequest (bytes "POST /index.html HTTP/1.0\r\n\r\n" ++ List.replicate 4067 0 ++ [])
      = Ret.val (bytes "POST /index.html HTTP/1.0\r\n\r\n" ++ List.replicate 4067 0 ++ [], none) ∧
    serve_request ⟨[RecvResult.data (bytes "POST /index.html HTTP/1.0\r\n\r\n")], [], fsIndex⟩
      = Outcome.returned [Event.send error400 error400.length] :=
  have h := malformed_request_gets_400
    ⟨[RecvResult.data (bytes "POST /index.html HTTP/1.0\r\n\r\n")], [], fsIndex⟩
    ⟨0, bytes "POST /index.html HTTP/1.0\r\n\r\n" ++ List.replicate 4067 0⟩
    (by rfl) (by decide!) (Or.inr (by decide!))
  ⟨by rfl, by decide!, by decide!, h.1, h.2.1⟩

/-! ## The claims -/

/-- C1 (refuted on the code): the request `GET /index.html HTTP/1.0\r\n\r\n` arrives as
its two lines in two reads and `./index.html` is readable.  The framing loop is not
left, however many reads returning 0 follow: no header and no file content is sent. -/
theorem split_request_gets_no_response (n : Nat) :
    serve_request
      ⟨[RecvResult.data requestLine, RecvResult.data blankLine]
        ++ List.replicate n RecvResult.closed, [], fsIndex⟩ =
      Outcome.reading ⟨28, requestLine ++ blankLine ++ List.replicate 4068 0⟩ := by
  have h := frameLoop_closed []
    ⟨28, requestLine ++ blankLine ++ List.replicate 4068 0⟩ n (by decide) (by decide!)
  simp only [serve_request, frameLoop_append, frameLoop_two_segments, h]

/-- C2 (refuted on the code): the scenario request
`GET /secret/../../etc/passwd HTTP/1.0\r\n\r\n` arrives as its two lines in two reads.
Its request line parses, the target `/secret/../../etc/passwd` contains `/../`, and the
buffer after the second read holds the whole request and parses to the same target.
The framing loop is not left, however many reads returning 0 follow: `parseRequest` is
not reached and no 400 response is sent. -/
theorem split_bad_target_gets_no_response (n : Nat) :
    parseRequest secretLine = Ret.val (secretLine, some (bytes "/secret/../../etc/passwd")) ∧
    DOTDOT <:+: bytes "/secret/../../etc/passwd" ∧
    parseRequest (secretLine ++ blankLine ++ List.replicate 4055 0) =
      Ret.val (secretLine ++ blankLine ++ List.replicate 4055 0,
        some (bytes "/secret/../../etc/passwd")) ∧
    serve_request
      ⟨[RecvResult.data secretLine, RecvResult.data blankLine]
        ++ List.replicate n RecvResult.closed, [], fsIndex⟩ =
      Outcome.reading ⟨41, secretLine ++ blankLine ++ List.replicate 4055 0⟩ ∧
    ∀ k, (serve_request
      ⟨[RecvResult.data secretLine, RecvResult.data blankLine]
        ++ List.replicate n RecvResult.closed, [], fsIndex⟩).events k = [] := by
  have h := frameLoop_closed []
    ⟨41, secretLine ++ blankLine ++ List.replicate 4055 0⟩ n (by decide) (by decide!)
  have hs : serve_request
      ⟨[RecvResult.data secretLine, RecvResult.data blankLine]
        ++ List.replicate n RecvResult.closed, [], fsIndex⟩ =
      Outcome.reading ⟨41, secretLine ++ blankLine ++ List.replicate 4055 0⟩ := by
    simp only [serve_request, frameLoop_append, frameLoop_secret_segments, h]
  refine ⟨by rfl, (strstr_iff _ _).mp (by decide), by rfl, hs, ?_⟩
  intro k
  rw [hs]
  rfl

/-- C3 (refuted on the code): `GET/index.html HTTP/1.0\r\n\r\n` lacks the separator
after `GET`: it is not in the grammar of the specification and does not begin with
`"GET "`.  `parseRequest` does not return 0 but the target `/index.html`, and
`serve_request`, given the request in one read, sends the 200 header and opens the file
instead of sending the 400 response. -/
theorem missing_separator_is_accepted :
    ¬ SpecLine (bytes "GET/index.html HTTP/1.0\r\n\r\n") ∧
    ¬ (bytes "GET " <+: bytes "GET/index.html HTTP/1.0\r\n\r\n") ∧
    parseRequest (bytes "GET/index.html HTTP/1.0\r\n\r\n") =
      Ret.val (bytes "GET/index.html HTTP/1.0\r\n\r\n", some (bytes "/index.html")) ∧
    serve_request ⟨[RecvResult.data (bytes "GET/index.html HTTP/1.0\r\n\r\n")], [], fsIndex⟩ =
      Outcome.streaming
        [Event.send response_str response_str.length, Event.openRO (bytes "./index.html") 3]
        ⟨3, bytes "hi", bytes "GET/index.html HTTP/1.0\r\n\r\n" ++ List.replicate 4069 0⟩ :=
  ⟨fun h => absurd h.starts (by decide), by decide, by rfl, by decide!⟩

/-- C4 (as stated, refuted): a path of 4096 bytes `a` meets the conditions of the claim,
and `%4096s` stores its 4096 bytes and a NUL in the block of 4096 bytes. -/
theorem parseRequest_faults_at_4096 :
    List.replicate 4096 97 ≠ [] ∧
    (∀ c ∈ List.replicate 4096 97, isspace c = false) ∧
    (List.replicate 4096 97).length ≤ 4096 ∧
    parseRequest (bytes "GET " ++ List.replicate 4096 97 ++ bytes " HTTP/1." ++ bytes "0"
        ++ bytes "\r\n" ++ blankLine) = Ret.fault :=
  ⟨by decide, fun c hc => by rw [List.eq_of_mem_replicate hc]; decide, by decide!, by decide!⟩

/-- C4 (as amended): for a non-empty path without white space (and, as in any C string,
without NUL) of at most 4095 bytes, a non-empty run of decimal digits and any bytes
`rest`, `parseRequest` applied to `"GET " path " HTTP/1." digits "\r\n" rest` returns
the path, and the request is as it was. -/
theorem parseRequest_returns_path (path digits rest : List Byte)
    (hne : path ≠ []) (hpath : ∀ c ∈ path, isspace c = false ∧ c ≠ 0)
    (hlen : path.length ≤ 4095)
    (hdne : digits ≠ []) (hdig : ∀ c ∈ digits, isdigit c = true) :
    parseRequest (bytes "GET " ++ path ++ bytes " HTTP/1." ++ digits ++ bytes "\r\n" ++ rest) =
      Ret.val
        (bytes "GET " ++ path ++ bytes " HTTP/1." ++ digits ++ bytes "\r\n" ++ rest, some path) := by
  have e : bytes "GET " ++ path ++ bytes " HTTP/1." ++ digits ++ bytes "\r\n" ++ rest
      = GET ++ ([32] ++ (path ++ ([32] ++ (HTTP1 ++ ([] ++ ([] ++ (digits ++ 13 :: 10 :: rest))))))) := by
    have h1 : bytes "GET " = GET ++ [32] := by decide
    have h2 : bytes " HTTP/1." = [32] ++ HTTP1 := by decide
    have h3 : bytes "\r\n" = [13, 10] := by decide
    rw [h1, h2, h3]
    simp [List.append_assoc]
  rw [e]
  exact parseRequest_of_lenient [32] path [32] [] [] digits rest
    (fun c hc => by rw [List.mem_singleton.mp hc]; decide) hne (fun c hc => (hpath c hc).1)
    (fun c hc => (hpath c hc).2) hlen (by simp)
    (fun c hc => by rw [List.mem_singleton.mp hc]; decide) (fun c hc => by simp at hc)
    (Or.inl rfl) hdne hdig

/-- C4 (as amended) at the path `/index.html`, the version `0` and an empty line as the
rest. -/
theorem parseRequest_returns_path_example :
    bytes "/index.html" ≠ [] ∧
    (∀ c ∈ bytes "/index.html", isspace c = false ∧ c ≠ 0) ∧
    (bytes "/index.html").length ≤ 4095 ∧
    bytes "0" ≠ [] ∧ (∀ c ∈ bytes "0", isdigit c = true) ∧
    parseRequest (bytes "GET " ++ bytes "/index.html" ++ bytes " HTTP/1." ++ bytes "0"
        ++ bytes "\r\n" ++ blankLine) =
      Ret.val (bytes "GET " ++ bytes "/index.html" ++ bytes " HTTP/1." ++ bytes "0"
        ++ bytes "\r\n" ++ blankLine, some (bytes "/index.html")) :=
  ⟨by decide, by decide, by decide, by decide, by decide,
    parseRequest_returns_path (bytes "/index.html") (bytes "0") blankLine
      (by decide) (by decide) (by decide) (by decide) (by decide)⟩

/-- C5 (refuted on the code): the request line and the empty line arrive in two reads,
as when a request is typed line by line.  After the second read the accumulated buffer
contains `\r\n\r\n`, but the loop has searched only from `buffer + offset`, has not
been left, and calls `recv` a third time. -/
theorem framing_misses_split_terminator (beyond : List Byte) :
    ∃ f, frameLoop beyond [RecvResult.data requestLine, RecvResult.data blankLine] frame0
        = Framing.reading f ∧
      f.offset = 28 ∧
      cstr f.buffer = requestLine ++ blankLine ∧
      strstr (cstr f.buffer) CRLFCRLF = true ∧
      strstr (cstr (f.buffer.drop f.offset ++ beyond)) CRLFCRLF = false :=
  ⟨_, frameLoop_two_segments beyond, rfl, by decide!, by decide!, by rfl⟩

/-- C6 (refuted on the code): when the peer has closed and every `recv` returns 0, the
framing loop is still running after any number `n` of reads.  When the first `recv`
fails, `offset` becomes `(size_t)-1`, the loop is left and the empty buffer is handed
to `parseRequest`, after which the 400 response is sent.  When a request line without
the empty line is followed by failing reads, `offset` is counted down until it wraps,
the loop is left, the partial buffer is parsed and the file is opened. -/
theorem framing_ignores_recv_result :
    (∀ (beyond : List Byte) (fs : List Byte → Option (List Byte)) (n : Nat),
      serve_request ⟨List.replicate n RecvResult.closed, beyond, fs⟩
        = Outcome.reading frame0) ∧
    frameLoop [] [RecvResult.error] frame0 = Framing.exited ⟨2 ^ 64 - 1, frame0.buffer⟩ ∧
    serve_request ⟨[RecvResult.error], [], fsIndex⟩ =
      Outcome.returned [Event.send error400 error400.length] ∧
    serve_request ⟨RecvResult.data requestLine :: List.replicate 27 RecvResult.error, [],
        fsIndex⟩ =
      Outcome.streaming
        [Event.send response_str response_str.length, Event.openRO (bytes "./index.html") 3]
        ⟨3, bytes "hi", requestLine ++ List.replicate 4070 0⟩ := by
  refine ⟨?_, by decide!, by decide!, by decide!⟩
  intro beyond fs n
  have h := frameLoop_closed beyond frame0 n (by decide) (by rfl)
  simp only [serve_request, h]

/-- C7 (refuted on the code): 4096 bytes that begin with a well-formed request line and
hold no `\r\n\r\n` fill the buffer; whatever follows the buffer in memory and whatever
the file system, the first line is parsed, the 200 header is sent and `./index.html` is
opened.  No 400 response is sent. -/
theorem full_buffer_is_served (beyond : List Byte) (fs : List Byte → Option (List Byte)) :
    oversized.length = 4096 ∧ strstr oversized CRLFCRLF = false ∧
    serve_request ⟨[RecvResult.data oversized], beyond, fs⟩ =
      Outcome.streaming
        [Event.send response_str response_str.length,
          Event.openRO (bytes "./index.html")
            (if (fs (bytes "./index.html")).isSome then 3 else -1)]
        ⟨if (fs (bytes "./index.html")).isSome then 3 else -1,
          (fs (bytes "./index.html")).getD [], oversized⟩ := by
  obtain ⟨offset, hf⟩ := frameLoop_oversized beyond
  have hp : parseRequest (oversized ++ beyond) =
      Ret.val (oversized ++ beyond, some (bytes "/index.html")) := by rfl
  refine ⟨by decide!, by decide!, ?_⟩
  simp only [serve_request, hf, hp]
  rfl

/-- C8 (refuted on the code): the file `./index.html` holds the two bytes `hi`.  The
streaming loop is entered; its first read returns 2, its second read returns 0, and for
every `n` the loop then performs `n` further reads and `n` further sends. -/
theorem streaming_continues_after_eof :
    serve_request ⟨[RecvResult.data (requestLine ++ blankLine)], [], fsIndex⟩ =
      Outcome.streaming
        [Event.send response_str response_str.length, Event.openRO (bytes "./index.html") 3]
        ⟨3, bytes "hi", requestLine ++ blankLine ++ List.replicate 4068 0⟩ ∧
    ∀ n, readResults (streamLoop (n + 2)
          ⟨3, bytes "hi", requestLine ++ blankLine ++ List.replicate 4068 0⟩)
        = 2 :: 0 :: List.replicate n 0 ∧
      sendLengths (streamLoop (n + 2)
          ⟨3, bytes "hi", requestLine ++ blankLine ++ List.replicate 4068 0⟩)
        = 2 :: 0 :: List.replicate n 0 := by
  refine ⟨by decide!, ?_⟩
  intro n
  have h1 : streamBody ⟨3, bytes "hi", requestLine ++ blankLine ++ List.replicate 4068 0⟩ =
      (⟨3, [], bytes "hi" ++ (requestLine ++ blankLine ++ List.replicate 4068 0).drop 2⟩,
        [Event.read 3 2,
          Event.send (bytes "hi" ++ (requestLine ++ blankLine ++ List.replicate 4068 0).drop 2)
            2]) := by rfl
  have h3 := streamLoop_at_eof
    (bytes "hi" ++ (requestLine ++ blankLine ++ List.replicate 4068 0).drop 2) (n + 1)
  rw [streamLoop_succ, h1, readResults_pair, sendLengths_pair, h3.1, h3.2]
  exact ⟨rfl, rfl⟩

/-- C9 (refuted on the code): the requested file does not exist.  The 200 header is
sent, `open` returns -1, the streaming loop is entered all the same, and every round of
it reads from descriptor -1 and calls `send` with the length `(size_t)-1` that comes
from the failed read. -/
theorem missing_file_is_streamed :
    serve_request ⟨[RecvResult.data (bytes "GET /missing.html HTTP/1.0\r\n\r\n")], [],
        fsEmpty⟩ =
      Outcome.streaming
        [Event.send response_str response_str.length,
          Event.openRO (bytes "./missing.html") (-1)]
        ⟨-1, [], bytes "GET /missing.html HTTP/1.0\r\n\r\n" ++ List.replicate 4066 0⟩ ∧
    ∀ n, readResults (streamLoop n
          ⟨-1, [], bytes "GET /missing.html HTTP/1.0\r\n\r\n" ++ List.replicate 4066 0⟩)
        = List.replicate n (-1) ∧
      sendLengths (streamLoop n
          ⟨-1, [], bytes "GET /missing.html HTTP/1.0\r\n\r\n" ++ List.replicate 4066 0⟩)
        = List.replicate n (2 ^ 64 - 1) :=
  ⟨by decide!, fun n => streamLoop_bad_fd _ _ n⟩

/-- C10 (refuted on the code): whatever the command line, and so whatever its second
argument, the path opened for the target `/index.html` is `./index.html`. -/
theorem opened_path_ignores_root (argv : List (List Byte))
    (fs : List Byte → Option (List Byte)) :
    main_connection argv ⟨[RecvResult.data (requestLine ++ blankLine)], [], fs⟩ =
      Outcome.streaming
        [Event.send response_str response_str.length,
          Event.openRO (bytes "./index.html")
            (if (fs (bytes "./index.html")).isSome then 3 else -1)]
        ⟨if (fs (bytes "./index.html")).isSome then 3 else -1,
          (fs (bytes "./index.html")).getD [],
          requestLine ++ blankLine ++ List.replicate 4068 0⟩ := by
  rfl

end Lab4
